import Mathlib

/-!
Verification of the analytics engine of the trading-journal backend
(`main.py`, `schemas.py`).

Modelling conventions:
* Python floats are modelled as exact rationals (`ℚ`); `float('inf')`, which
  only ever appears as a `profit_factor` value, is modelled by a dedicated
  constructor of the `PF` type.
* UTC datetimes are modelled as integer seconds since the Unix epoch (`ℤ`).
  `datetime.date()` is floor division by 86400; `timedelta(days=180)` is
  `180 * 86400` seconds; `date.isoformat()` renders via the standard civil
  calendar algorithms (`civilFromDays` / `daysFromCivil`).
* A Mongo trade document is a record of optional fields: a field read with
  `.get` that may be absent (or whose value cannot be coerced by `float`)
  is `none`.  `closed` is the truthiness of `trade.get("closed")`.
* Python dicts built by get-or-default accumulation are association lists
  updated by `upsert`, which preserves first-insertion key order exactly as
  a Python dict does.
* Exceptions escaping an endpoint are modelled with `Except String`.
-/

namespace TradingJournal

/-! ## Civil calendar arithmetic (UTC, proleptic Gregorian) -/

/-- Leap-year test of the Gregorian calendar. -/
def isLeap (y : ℤ) : Bool :=
  (y % 4 == 0 && y % 100 != 0) || y % 400 == 0

/-- Number of days in month `m` of year `y`. -/
def daysInMonth (y m : ℤ) : ℤ :=
  if m = 2 then (if isLeap y then 29 else 28)
  else if m = 4 ∨ m = 6 ∨ m = 9 ∨ m = 11 then 30
  else 31

/-- Days since 1970-01-01 of the civil date `y-m-d` (Hinnant's algorithm;
`/` on `ℤ` is euclidean division, which is floor division for the positive
divisors used here). -/
def daysFromCivil (y m d : ℤ) : ℤ :=
  let y' := if m ≤ 2 then y - 1 else y
  let era := y' / 400
  let yoe := y' - era * 400
  let mp := (m + 9) % 12
  let doy := (153 * mp + 2) / 5 + d - 1
  let doe := yoe * 365 + yoe / 4 - yoe / 100 + doy
  era * 146097 + doe - 719468

/-- Civil date `(y, m, d)` of a day count since 1970-01-01 (inverse of
`daysFromCivil`). -/
def civilFromDays (z : ℤ) : ℤ × ℤ × ℤ :=
  let z' := z + 719468
  let era := z' / 146097
  let doe := z' - era * 146097
  let yoe := (doe - doe / 1460 + doe / 36524 - doe / 146096) / 365
  let y := yoe + era * 400
  let doy := doe - (365 * yoe + yoe / 4 - yoe / 100)
  let mp := (5 * doy + 2) / 153
  let d := doy - (153 * mp + 2) / 5 + 1
  let m := mp + (if mp < 10 then 3 else -9)
  (if m ≤ 2 then y + 1 else y, m, d)

/-- Calendar day (days since epoch) of a datetime in epoch seconds: the
model of Python `datetime.date()` for a UTC datetime. -/
def dayOfSec (s : ℤ) : ℤ := s / 86400

/-- Left-pad to two digits, as `%02d`. -/
def pad2 (n : ℤ) : String :=
  (if n < 10 then "0" else "") ++ toString n

/-- Left-pad to four digits, as `%04d`. -/
def pad4 (n : ℤ) : String :=
  (if n < 10 then "000" else if n < 100 then "00" else if n < 1000 then "0" else "")
    ++ toString n

/-- `date.isoformat()` of a day count: `"YYYY-MM-DD"`. -/
def dateIso (z : ℤ) : String :=
  let c := civilFromDays z
  pad4 c.1 ++ "-" ++ pad2 c.2.1 ++ "-" ++ pad2 c.2.2

/-- `datetime.strftime("%Y-%m")` of a datetime in epoch seconds. -/
def monthKey (s : ℤ) : String :=
  let c := civilFromDays (dayOfSec s)
  pad4 c.1 ++ "-" ++ pad2 c.2.1

/-- Numeric value of a decimal digit character, if it is one. -/
def digitVal (c : Char) : ℤ := (c.toNat : ℤ) - 48

/-- Model of `datetime.fromisoformat` restricted to the date-only form
`"YYYY-MM-DD"` (the only form the analytics endpoints are exercised with);
time-extended ISO forms are not modelled.  Returns the epoch seconds of
midnight of that date, or an error for an unparsable string, as the Python
function raises `ValueError`. -/
def fromisoformat (s : String) : Except String ℤ :=
  match s.toList with
  | [y1, y2, y3, y4, h1, m1, m2, h2, d1, d2] =>
    if h1 = '-' ∧ h2 = '-' ∧ y1.isDigit ∧ y2.isDigit ∧ y3.isDigit ∧ y4.isDigit
        ∧ m1.isDigit ∧ m2.isDigit ∧ d1.isDigit ∧ d2.isDigit then
      let y := digitVal y1 * 1000 + digitVal y2 * 100 + digitVal y3 * 10 + digitVal y4
      let m := digitVal m1 * 10 + digitVal m2
      let d := digitVal d1 * 10 + digitVal d2
      if 1 ≤ y ∧ 1 ≤ m ∧ m ≤ 12 ∧ 1 ≤ d ∧ d ≤ daysInMonth y m then
        Except.ok (daysFromCivil y m d * 86400)
      else Except.error "ValueError: Invalid isoformat string"
    else Except.error "ValueError: Invalid isoformat string"
  | _ => Except.error "ValueError: Invalid isoformat string"

/-! ## Trade records -/

/-- A trade document as the analytics code reads it with `.get`: every field
that may be absent, `None`, or non-coercible is an `Option`.  `closed` is
the truthiness of `trade.get("closed")` (absent ≡ `false`).  Datetimes are
epoch seconds. -/
structure Trade where
  symbol : Option String := none
  side : Option String := none
  strategy : Option String := none
  entry_date : Option ℤ := none
  exit_date : Option ℤ := none
  entry_price : Option ℚ := none
  exit_price : Option ℚ := none
  quantity : Option ℚ := none
  fees : Option ℚ := none
  closed : Bool := false
deriving DecidableEq

/-- `trade_realized_pnl` of `main.py`: `None` when the trade is not closed
or any of entry price, exit price, quantity is missing (the `float(...)`
calls raise and the exception is swallowed); `fees` defaults to `0.0`;
the long formula applies exactly when `side == "long"`. -/
def trade_realized_pnl (t : Trade) : Option ℚ :=
  if !t.closed then none
  else
    match t.entry_price, t.exit_price, t.quantity with
    | some entry, some exitp, some qty =>
      let fees := t.fees.getD 0
      let pnl := if t.side = some "long" then (exitp - entry) * qty else (entry - exitp) * qty
      some (pnl - fees)
    | _, _, _ => none

/-! ## Association-list dictionaries (Python dict accumulation) -/

/-- `m[k] = m.get(k, 0) + v` on an insertion-ordered dict. -/
def upsert {α : Type} [DecidableEq α] : List (α × ℚ) → α → ℚ → List (α × ℚ)
  | [], k, v => [(k, v)]
  | (k', v') :: rest, k, v =>
    if k = k' then (k', v' + v) :: rest else (k', v') :: upsert rest k v

/-- `m.get(k, 0)`. -/
def lookupD {α : Type} [DecidableEq α] : List (α × ℚ) → α → ℚ
  | [], _ => 0
  | (k', v) :: rest, k => if k = k' then v else lookupD rest k

/-- One step of the accumulation loop shared by all groupings: if the trade
yields a key/value contribution, add it into the dict. -/
def accumStep {α : Type} [DecidableEq α] (contrib : Trade → Option (α × ℚ))
    (m : List (α × ℚ)) (t : Trade) : List (α × ℚ) :=
  match contrib t with
  | none => m
  | some kp => upsert m kp.1 kp.2

/-- The accumulation loop shared by all groupings: walk the trades, and for
each trade that yields a key/value contribution, add it into the dict. -/
def accumBy {α : Type} [DecidableEq α] (contrib : Trade → Option (α × ℚ))
    (ts : List Trade) : List (α × ℚ) :=
  ts.foldl (accumStep contrib) []

/-- The contribution of one trade to the dict entry at key `k`. -/
def contribVal {α : Type} [DecidableEq α] (contrib : Trade → Option (α × ℚ))
    (k : α) (t : Trade) : Option ℚ :=
  (contrib t).bind fun kp => if kp.1 = k then some kp.2 else none

/-! ## Summary aggregator -/

/-- Profit factor value: a rational or `float('inf')`. -/
inductive PF where
  | val : ℚ → PF
  | inf : PF
deriving DecidableEq

/-- The computable PnL values of the closed trades, in input order
(`pnls` in `analytics_summary`). -/
def computablePnls (trades : List Trade) : List ℚ :=
  (trades.filter fun t => t.closed).filterMap trade_realized_pnl

/-- The non-negative computable PnLs (`wins`). -/
def pnlWins (trades : List Trade) : List ℚ :=
  (computablePnls trades).filter fun p => 0 ≤ p

/-- The negative computable PnLs (`losses`). -/
def pnlLosses (trades : List Trade) : List ℚ :=
  (computablePnls trades).filter fun p => p < 0

/-- Key used by the `by_strategy` grouping: `t.get("strategy") or
"Unlabeled"` (Python truthiness: `None` and `""` both fall back). -/
def strategyKey (t : Trade) : String :=
  match t.strategy with
  | some s => if s = "" then "Unlabeled" else s
  | none => "Unlabeled"

/-- Contribution of one closed trade to `by_symbol`. -/
def symbolContrib (t : Trade) : Option (Option String × ℚ) :=
  (trade_realized_pnl t).map fun p => (t.symbol, p)

/-- Contribution of one closed trade to `by_strategy`. -/
def strategyContrib (t : Trade) : Option (String × ℚ) :=
  (trade_realized_pnl t).map fun p => (strategyKey t, p)

/-- Contribution of one closed trade to `monthly`: bucketed by
`exit_date or entry_date`; skipped when both are absent. -/
def monthContrib (t : Trade) : Option (String × ℚ) :=
  match trade_realized_pnl t, t.exit_date.orElse (fun _ => t.entry_date) with
  | some p, some d => some (monthKey d, p)
  | _, _ => none

/-- The response record of `analytics_summary`. -/
structure Summary where
  total_trades : ℕ
  closed_trades : ℕ
  win_rate : ℚ
  net_pnl : ℚ
  avg_win : ℚ
  avg_loss : ℚ
  profit_factor : PF
  expectancy : ℚ
  by_symbol : List (Option String × ℚ)
  by_strategy : List (String × ℚ)
  monthly : List (String × ℚ)
deriving DecidableEq

/-- `analytics_summary` of `main.py` as a pure function of the fetched
trade list (DB filtering by symbol/strategy/date window happens in the
storage collaborator before this computation). -/
def analytics_summary (trades : List Trade) : Summary :=
  let closedTrades := trades.filter fun t => t.closed
  let pnls := computablePnls trades
  let wins := pnlWins trades
  let losses := pnlLosses trades
  let net_pnl := pnls.sum
  let win_rate : ℚ := if pnls = [] then 0 else (wins.length : ℚ) / (pnls.length : ℚ) * 100
  let avg_win : ℚ := if wins = [] then 0 else wins.sum / (wins.length : ℚ)
  let avg_loss : ℚ := if losses = [] then 0 else losses.sum / (losses.length : ℚ)
  let profit_factor : PF :=
    if wins ≠ [] ∧ losses ≠ [] then PF.val (wins.sum / |losses.sum|)
    else if wins ≠ [] then PF.inf else PF.val 0
  let expectancy := (win_rate / 100) * avg_win + (1 - win_rate / 100) * avg_loss
  { total_trades := trades.length
    closed_trades := closedTrades.length
    win_rate := win_rate
    net_pnl := net_pnl
    avg_win := avg_win
    avg_loss := avg_loss
    profit_factor := profit_factor
    expectancy := expectancy
    by_symbol := accumBy symbolContrib closedTrades
    by_strategy := accumBy strategyContrib closedTrades
    monthly := accumBy monthContrib closedTrades }

/-! ## Daily calendar aggregator -/

/-- The response record of `analytics_calendar`: the resolved window dates
(as `date().isoformat()` strings) and the sparse day → PnL mapping. -/
structure CalendarResult where
  start : String
  end_ : String
  daily : List (String × ℚ)
deriving DecidableEq

/-- The storage query of `analytics_calendar`:
`{closed: True, exit_date: {$gte: start, $lte: end}}` — documents whose
`closed` is exactly true and whose `exit_date` is present and inside the
inclusive window. -/
def windowFilter (trades : List Trade) (startSec endSec : ℤ) : List Trade :=
  trades.filter fun t =>
    t.closed && match t.exit_date with
      | some d => decide (startSec ≤ d) && decide (d ≤ endSec)
      | none => false

/-- Contribution of one fetched trade to the `by_day` dict: its computable
PnL keyed by the ISO day of its `exit_date` (every fetched trade has an
`exit_date` by the query; a dateless trade contributes nothing). -/
def dayContrib (t : Trade) : Option (String × ℚ) :=
  match trade_realized_pnl t, t.exit_date with
  | some p, some d => some (dateIso (dayOfSec d), p)
  | _, _ => none

/-- `analytics_calendar` of `main.py` as a pure function of the stored
trades, the optional `start`/`end` query strings, and the current UTC time
`now` in epoch seconds.  `end` is parsed first, then `start`; a raised
`ValueError` from `datetime.fromisoformat` escapes as an error.  Omitted
bounds default to `end = now`, `start = end - timedelta(days=180)`. -/
def analytics_calendar (trades : List Trade) (startStr endStr : Option String)
    (now : ℤ) : Except String CalendarResult := do
  let endSec ← match endStr with
    | some s => fromisoformat s
    | none => pure now
  let startSec ← match startStr with
    | some s => fromisoformat s
    | none => pure (endSec - 180 * 86400)
  let fetched := windowFilter trades startSec endSec
  pure { start := dateIso (dayOfSec startSec)
         end_ := dateIso (dayOfSec endSec)
         daily := accumBy dayContrib fetched }

/-! ## Equity curve builder -/

/-- The sort key comparison of `.sort("exit_date", 1)`: ascending by
`exit_date`, documents missing the field first (Mongo sorts nulls/missing
before dates). -/
def exitDateLe (t t' : Trade) : Bool :=
  match t.exit_date, t'.exit_date with
  | none, _ => true
  | some _, none => false
  | some d, some d' => d ≤ d'

/-- The storage query of `analytics_equity_curve`:
`{closed: True, exit_price: {$ne: None}}`. -/
def equityFilter (trades : List Trade) : List Trade :=
  trades.filter fun t => t.closed && t.exit_price.isSome

/-- The accumulation loop of `analytics_equity_curve`: walk the sorted
trades, skip non-computable ones, and emit `(exit day, running sum)` per
computable trade.  A computable trade with no `exit_date` makes the Python
loop raise `AttributeError` on `None.date()`; that escapes as an error and
no points are returned. -/
def curveLoop : List Trade → ℚ → Except String (List (ℤ × ℚ))
  | [], _ => Except.ok []
  | t :: rest, cum =>
    match trade_realized_pnl t with
    | none => curveLoop rest cum
    | some p =>
      match t.exit_date with
      | none => Except.error "AttributeError: NoneType object has no attribute date"
      | some d => (curveLoop rest (cum + p)).map fun pts => (dayOfSec d, cum + p) :: pts

/-- `analytics_equity_curve` of `main.py` as a pure function of the stored
trades: filter to closed trades with an exit price, sort ascending by
`exit_date`, then accumulate.  Points carry the calendar day (days since
epoch) and the cumulative equity; the HTTP layer renders the day with
`dateIso`. -/
def analytics_equity_curve (trades : List Trade) : Except String (List (ℤ × ℚ)) :=
  curveLoop ((equityFilter trades).mergeSort exitDateLe) 0

/-- The serialized points as the endpoint emits them:
`{"date": ..., "equity": ...}` with the date ISO-rendered. -/
def equityCurvePoints (trades : List Trade) : Except String (List (String × ℚ)) :=
  (analytics_equity_curve trades).map (List.map fun pt => (dateIso pt.1, pt.2))

/-! ## Example records used by the concrete test-property witnesses -/

/-- The spec's long example: entry 100, exit 110, quantity 10, fees 5. -/
def exampleLong : Trade :=
  { symbol := some "AAPL", side := some "long", entry_price := some 100,
    exit_price := some 110, quantity := some 10, fees := some 5, closed := true,
    exit_date := some (daysFromCivil 2024 4 2 * 86400) }

/-- The spec's short example: entry 100, exit 90, quantity 5, fees 2. -/
def exampleShort : Trade :=
  { symbol := some "BTC", side := some "short", strategy := some "scalp",
    entry_price := some 100, exit_price := some 90, quantity := some 5,
    fees := some 2, closed := true,
    exit_date := some (daysFromCivil 2024 3 1 * 86400) }

/-- A losing long trade: entry 100, exit 90, quantity 2, fees 1 → PnL −21. -/
def exampleLoss : Trade :=
  { symbol := some "TSLA", side := some "long", entry_price := some 100,
    exit_price := some 90, quantity := some 2, fees := some 1, closed := true,
    exit_date := some (daysFromCivil 2024 3 28 * 86400) }

/-- A trade marked closed with no side, no exit data beyond prices. -/
def exampleSideless : Trade :=
  { symbol := some "ETH", entry_price := some 100, exit_price := some 90,
    quantity := some 5, fees := some 2, closed := true,
    exit_date := some (daysFromCivil 2024 3 2 * 86400) }

/-- An open trade: `closed` is false. -/
def exampleOpen : Trade :=
  { symbol := some "MSFT", side := some "long", entry_price := some 10,
    exit_price := some 20, quantity := some 3, closed := false }

/-- A closed trade with no quantity: PnL not computable. -/
def exampleNoQty : Trade :=
  { symbol := some "NVDA", side := some "long", entry_price := some 10,
    exit_price := some 20, closed := true,
    exit_date := some (daysFromCivil 2024 3 9 * 86400) }

/-- A computable closed trade with no `exit_date`. -/
def exampleDateless : Trade :=
  { closed := true, entry_price := some 100, exit_price := some 110,
    quantity := some 1 }

/-- The spec's calendar example: one closed trade on 2024-03-15 with PnL 42. -/
def exampleCalTrade : Trade :=
  { symbol := some "X", side := some "long", entry_price := some 100,
    exit_price := some 110, quantity := some 5, fees := some 8, closed := true,
    exit_date := some (daysFromCivil 2024 3 15 * 86400 + 3600) }

/-- A fixed "current time": midnight UTC, 2024-03-20. -/
def exampleNow : ℤ := daysFromCivil 2024 3 20 * 86400

/-! ## Helper lemmas -/

theorem pnl_some_closed {t : Trade} {p : ℚ} (h : trade_realized_pnl t = some p) :
    t.closed = true := by
  by_contra hc
  simp [trade_realized_pnl, Bool.not_eq_true] at h
  rw [Bool.not_eq_true] at hc
  simp [hc] at h

theorem pnl_some_exit_price {t : Trade} {p : ℚ}
    (h : trade_realized_pnl t = some p) : t.exit_price.isSome := by
  rcases hx : t.exit_price with _ | x
  · rw [trade_realized_pnl, hx] at h
    rcases t.entry_price with _ | e <;> simp at h
  · rfl

theorem pnl_none_of_not_closed {t : Trade} (h : t.closed = false) :
    trade_realized_pnl t = none := by
  simp [trade_realized_pnl, h]

/-- Filtering by a predicate that holds on every element with a `some`
image does not change a `filterMap`. -/
theorem filterMap_filter_eq {α β : Type} (f : α → Option β) (q : α → Bool)
    (h : ∀ a, q a = false → f a = none) :
    ∀ l : List α, (l.filter q).filterMap f = l.filterMap f := by
  intro l
  induction l with
  | nil => rfl
  | cons a l ih =>
    rcases hq : q a with _ | _
    · rw [List.filter_cons, hq, if_neg (by simp), List.filterMap_cons, h a hq, ih]
    · rw [List.filter_cons, hq, if_pos (by simp), List.filterMap_cons,
        List.filterMap_cons, ih]

theorem computablePnls_eq_filterMap (trades : List Trade) :
    computablePnls trades = trades.filterMap trade_realized_pnl := by
  rw [computablePnls]
  exact filterMap_filter_eq _ _ (fun a ha => pnl_none_of_not_closed ha) trades

/-! ## Claim theorems: realized PnL calculator -/

/-- C1: for every PnL-computable trade, `trade_realized_pnl` returns
`(exit_price - entry_price) * quantity - fees` when the side is long and
`(entry_price - exit_price) * quantity - fees` when the side is short. -/
theorem trade_realized_pnl_formula (t : Trade) (e x q : ℚ)
    (hc : t.closed = true) (he : t.entry_price = some e)
    (hx : t.exit_price = some x) (hq : t.quantity = some q) :
    (t.side = some "long" →
      trade_realized_pnl t = some ((x - e) * q - t.fees.getD 0))
    ∧ (t.side = some "short" →
      trade_realized_pnl t = some ((e - x) * q - t.fees.getD 0)) := by
  constructor <;> intro hs <;>
    rw [trade_realized_pnl, hc, he, hx, hq] <;> simp [hs]

/-- C1 witness: the spec's long trade (entry 100, exit 110, quantity 10,
fees 5) yields 95 and its short trade (entry 100, exit 90, quantity 5,
fees 2) yields 48. -/
theorem trade_realized_pnl_formula_witness :
    trade_realized_pnl exampleLong = some 95
    ∧ trade_realized_pnl exampleShort = some 48 := by
  constructor
  · rw [(trade_realized_pnl_formula exampleLong 100 110 10 rfl rfl rfl rfl).1 rfl]
    norm_num [exampleLong]
  · rw [(trade_realized_pnl_formula exampleShort 100 90 5 rfl rfl rfl rfl).2 rfl]
    norm_num [exampleShort]

/-- C4: `trade_realized_pnl` is total — it returns either a number or
`none` — and it returns `none` whenever the trade is not closed, or
whenever entry price, exit price or quantity is absent. -/
theorem trade_realized_pnl_none_cases (t : Trade) :
    (trade_realized_pnl t = none ∨ ∃ v, trade_realized_pnl t = some v)
    ∧ (t.closed = false → trade_realized_pnl t = none)
    ∧ (t.entry_price = none → trade_realized_pnl t = none)
    ∧ (t.exit_price = none → trade_realized_pnl t = none)
    ∧ (t.quantity = none → trade_realized_pnl t = none) := by
  refine ⟨?_, fun h => pnl_none_of_not_closed h, ?_, ?_, ?_⟩
  · rcases h : trade_realized_pnl t with _ | v
    · exact Or.inl rfl
    · exact Or.inr ⟨v, rfl⟩
  all_goals intro h
  all_goals rw [trade_realized_pnl, h]
  all_goals rcases t.closed <;> rcases t.entry_price <;>
    rcases t.exit_price <;> rcases t.quantity <;> rfl

/-- C4 witness: an open trade yields `none` even with full price data, and
a closed trade missing its quantity yields `none`. -/
theorem trade_realized_pnl_none_cases_witness :
    (exampleOpen.closed = false ∧ trade_realized_pnl exampleOpen = none)
    ∧ (exampleNoQty.quantity = none ∧ trade_realized_pnl exampleNoQty = none) :=
  ⟨⟨rfl, (trade_realized_pnl_none_cases exampleOpen).2.1 rfl⟩,
   ⟨rfl, (trade_realized_pnl_none_cases exampleNoQty).2.2.2.2 rfl⟩⟩

/-- C10: for every computable closed trade, the short-side formula
`(entry_price - exit_price) * quantity - fees` applies whenever the side
is any value other than exactly `"long"`, including an absent side. -/
theorem trade_realized_pnl_short_by_default (t : Trade) (e x q : ℚ)
    (hc : t.closed = true) (he : t.entry_price = some e)
    (hx : t.exit_price = some x) (hq : t.quantity = some q)
    (hs : t.side ≠ some "long") :
    trade_realized_pnl t = some ((e - x) * q - t.fees.getD 0) := by
  rw [trade_realized_pnl, hc, he, hx, hq]
  simp [hs]

/-- C10 witness: a closed trade with no side at all (entry 100, exit 90,
quantity 5, fees 2) gets the short formula and yields 48. -/
theorem trade_realized_pnl_short_by_default_witness :
    exampleSideless.side = none ∧ trade_realized_pnl exampleSideless = some 48 := by
  refine ⟨rfl, ?_⟩
  rw [trade_realized_pnl_short_by_default exampleSideless 100 90 5 rfl rfl rfl rfl
    (by simp [exampleSideless])]
  norm_num [exampleSideless]

/-! ## Dictionary accumulation lemmas -/

theorem lookupD_upsert {α : Type} [DecidableEq α] (m : List (α × ℚ))
    (kI kQ : α) (v : ℚ) :
    lookupD (upsert m kI v) kQ = lookupD m kQ + if kQ = kI then v else 0 := by
  induction m with
  | nil => by_cases h : kQ = kI <;> simp [upsert, lookupD, h]
  | cons p rest ih =>
    obtain ⟨a, b⟩ := p
    by_cases hI : kI = a
    · rw [upsert, if_pos hI]
      by_cases hQ : kQ = a
      · rw [lookupD, if_pos hQ, lookupD, if_pos hQ, if_pos (hQ.trans hI.symm)]
      · rw [lookupD, if_neg hQ, lookupD, if_neg hQ,
          if_neg (fun h => hQ (h.trans hI)), add_zero]
    · rw [upsert, if_neg hI]
      by_cases hQ : kQ = a
      · rw [lookupD, if_pos hQ, lookupD, if_pos hQ,
          if_neg (fun h => hI (h.symm.trans hQ)), add_zero]
      · rw [lookupD, if_neg hQ, lookupD, if_neg hQ, ih]

theorem mem_keys_upsert {α : Type} [DecidableEq α] (m : List (α × ℚ))
    (kI kQ : α) (v : ℚ) :
    kQ ∈ (upsert m kI v).map Prod.fst ↔ kQ ∈ m.map Prod.fst ∨ kQ = kI := by
  induction m with
  | nil => simp [upsert]
  | cons p rest ih =>
    obtain ⟨a, b⟩ := p
    by_cases hI : kI = a
    · rw [upsert, if_pos hI]
      subst hI
      simp only [List.map_cons, List.mem_cons]
      tauto
    · rw [upsert, if_neg hI]
      simp only [List.map_cons, List.mem_cons, ih]
      tauto

theorem lookupD_foldl_accumStep {α : Type} [DecidableEq α]
    (contrib : Trade → Option (α × ℚ)) (k : α) :
    ∀ (ts : List Trade) (m : List (α × ℚ)),
      lookupD (ts.foldl (accumStep contrib) m) k
        = lookupD m k + (ts.filterMap (contribVal contrib k)).sum := by
  intro ts
  induction ts with
  | nil => simp
  | cons t ts ih =>
    intro m
    rw [List.foldl_cons, ih, List.filterMap_cons]
    rcases hc : contrib t with _ | ⟨kc, vc⟩
    · rw [accumStep, hc]
      simp [contribVal, hc]
    · rw [accumStep, hc, lookupD_upsert]
      by_cases hk : k = kc
      · subst hk
        simp [contribVal, hc, add_assoc]
      · have hck : ¬kc = k := fun h => hk h.symm
        have : contribVal contrib k t = none := by
          simp [contribVal, hc, hck]
        simp [this, hk]

theorem lookupD_accumBy {α : Type} [DecidableEq α]
    (contrib : Trade → Option (α × ℚ)) (k : α) (ts : List Trade) :
    lookupD (accumBy contrib ts) k = (ts.filterMap (contribVal contrib k)).sum := by
  rw [accumBy, lookupD_foldl_accumStep, lookupD, zero_add]

theorem mem_keys_foldl_accumStep {α : Type} [DecidableEq α]
    (contrib : Trade → Option (α × ℚ)) (k : α) :
    ∀ (ts : List Trade) (m : List (α × ℚ)),
      k ∈ (ts.foldl (accumStep contrib) m).map Prod.fst
        ↔ k ∈ m.map Prod.fst ∨ ∃ t ∈ ts, ∃ p, contrib t = some (k, p) := by
  intro ts
  induction ts with
  | nil => simp
  | cons t ts ih =>
    intro m
    rw [List.foldl_cons, ih]
    rcases hc : contrib t with _ | ⟨kc, vc⟩
    · rw [accumStep, hc]
      simp only [List.mem_cons]
      constructor
      · rintro (h | h)
        · exact Or.inl h
        · exact Or.inr (by rcases h with ⟨u, hu, hp⟩; exact ⟨u, Or.inr hu, hp⟩)
      · rintro (h | ⟨u, hu | hu, p, hp⟩)
        · exact Or.inl h
        · rw [hu, hc] at hp
          cases hp
        · exact Or.inr ⟨u, hu, p, hp⟩
    · rw [accumStep, hc, mem_keys_upsert]
      simp only [List.mem_cons]
      constructor
      · rintro ((h | h) | h)
        · exact Or.inl h
        · exact Or.inr ⟨t, Or.inl rfl, vc, by rw [hc, h]⟩
        · exact Or.inr (by rcases h with ⟨u, hu, hp⟩; exact ⟨u, Or.inr hu, hp⟩)
      · rintro (h | ⟨u, hu | hu, p, hp⟩)
        · exact Or.inl (Or.inl h)
        · rw [hu, hc] at hp
          exact Or.inl (Or.inr (congrArg Prod.fst (Option.some.inj hp)).symm)
        · exact Or.inr ⟨u, hu, p, hp⟩

theorem mem_keys_accumBy {α : Type} [DecidableEq α]
    (contrib : Trade → Option (α × ℚ)) (k : α) (ts : List Trade) :
    k ∈ (accumBy contrib ts).map Prod.fst
      ↔ ∃ t ∈ ts, ∃ p, contrib t = some (k, p) := by
  rw [accumBy, mem_keys_foldl_accumStep]
  simp

/-! ## Claim theorems: daily calendar aggregator -/

theorem pnl_exampleCalTrade : trade_realized_pnl exampleCalTrade = some 42 := by
  norm_num [trade_realized_pnl, exampleCalTrade]

theorem window_exampleCalTrade :
    windowFilter [exampleCalTrade] (exampleNow - 180 * 86400) exampleNow
      = [exampleCalTrade] := by
  simp [windowFilter, exampleCalTrade, exampleNow]
  constructor <;> decide

theorem dayContrib_exampleCalTrade :
    dayContrib exampleCalTrade = some ("2024-03-15", 42) := by
  have hed : exampleCalTrade.exit_date
      = some (daysFromCivil 2024 3 15 * 86400 + 3600) := rfl
  simp only [dayContrib, pnl_exampleCalTrade, hed]
  have hiso : dateIso (dayOfSec (daysFromCivil 2024 3 15 * 86400 + 3600))
      = "2024-03-15" := by decide
  rw [hiso]

/-- C7: `analytics_calendar` with omitted bounds resolves `end = now` and
`start = end - 180 days`, echoes the resolved dates, and its `daily`
mapping sends each UTC calendar day to the sum of the computable PnL of the
fetched trades closed that day, with a key present exactly when some trade
contributes to it; on a window holding exactly one closed trade on
2024-03-15 with PnL 42 the mapping is exactly `{"2024-03-15": 42}`. -/
theorem analytics_calendar_daily_spec (trades : List Trade) (now : ℤ) :
    ∃ res, analytics_calendar trades none none now = Except.ok res
      ∧ res.start = dateIso (dayOfSec (now - 180 * 86400))
      ∧ res.end_ = dateIso (dayOfSec now)
      ∧ (∀ k, lookupD res.daily k
          = ((windowFilter trades (now - 180 * 86400) now).filterMap
              (contribVal dayContrib k)).sum)
      ∧ (∀ k, k ∈ res.daily.map Prod.fst
          ↔ ∃ t ∈ windowFilter trades (now - 180 * 86400) now,
              ∃ p, dayContrib t = some (k, p))
      ∧ analytics_calendar [exampleCalTrade] none none exampleNow
          = Except.ok { start := "2023-09-22", end_ := "2024-03-20",
                        daily := [("2024-03-15", 42)] } := by
  refine ⟨_, rfl, rfl, rfl, fun k => lookupD_accumBy _ _ _,
    fun k => mem_keys_accumBy _ _ _, ?_⟩
  have hcal : analytics_calendar [exampleCalTrade] none none exampleNow
      = Except.ok
          { start := dateIso (dayOfSec (exampleNow - 180 * 86400))
            end_ := dateIso (dayOfSec exampleNow)
            daily := accumBy dayContrib
              (windowFilter [exampleCalTrade] (exampleNow - 180 * 86400)
                exampleNow) } := rfl
  rw [hcal, window_exampleCalTrade]
  simp only [accumBy, accumStep, List.foldl, dayContrib_exampleCalTrade, upsert,
    Except.ok.injEq, CalendarResult.mk.injEq]
  exact ⟨by decide, by decide, by trivial⟩

/-- C9: an unparsable `start` or `end` date string makes
`analytics_calendar` surface an error to the caller instead of guessing or
coercing a window. -/
theorem analytics_calendar_invalid_date (trades : List Trade) (now : ℤ)
    (startStr endStr : Option String)
    (h : (∃ s, startStr = some s ∧ ∃ m, fromisoformat s = Except.error m)
      ∨ (∃ e, endStr = some e ∧ ∃ m, fromisoformat e = Except.error m)) :
    ∃ msg, analytics_calendar trades startStr endStr now = Except.error msg := by
  rcases hE : endStr with _ | e
  · rcases h with ⟨s, hs, m, hm⟩ | ⟨e, he, -⟩
    · subst hs
      exact ⟨m, by simp only [analytics_calendar, pure_bind, hm]; rfl⟩
    · rw [hE] at he
      cases he
  · rcases hFe : fromisoformat e with me | ve
    · exact ⟨me, by simp only [analytics_calendar, hFe]; rfl⟩
    · rcases h with ⟨s, hs, m, hm⟩ | ⟨e', he', m, hm⟩
      · subst hs
        exact ⟨m, by simp only [analytics_calendar, hFe, pure_bind, hm]; rfl⟩
      · rw [hE] at he'
        cases he'
        rw [hFe] at hm
        cases hm

/-- C9 witness: the unparsable string `"not-a-date"` as `start` produces an
error. -/
theorem analytics_calendar_invalid_date_witness :
    (∃ m, fromisoformat "not-a-date" = Except.error m)
    ∧ ∃ msg, analytics_calendar [] (some "not-a-date") none 0
        = Except.error msg :=
  ⟨⟨"ValueError: Invalid isoformat string", rfl⟩,
   analytics_calendar_invalid_date [] 0 (some "not-a-date") none
     (Or.inl ⟨"not-a-date", rfl,
       ⟨"ValueError: Invalid isoformat string", rfl⟩⟩)⟩

/-! ## Claim theorems: summary aggregator -/

/-- C5: summarizing the empty trade sequence never fails and returns
`total_trades = 0`, `win_rate = 0`, `net_pnl = 0`, `profit_factor = 0`. -/
theorem analytics_summary_empty :
    (analytics_summary []).total_trades = 0
    ∧ (analytics_summary []).win_rate = 0
    ∧ (analytics_summary []).net_pnl = 0
    ∧ (analytics_summary []).profit_factor = PF.val 0 :=
  ⟨rfl, rfl, rfl, rfl⟩

/-- C2: the summary's profit factor is `sum(wins) / abs(sum(losses))` when
both a win (PnL ≥ 0) and a loss (PnL < 0) exist among the computable PnLs,
`+infinity` when wins exist and losses do not, and `0` when no wins exist
(in particular when there are no computable trades at all). -/
theorem profit_factor_policy (trades : List Trade) :
    (pnlWins trades ≠ [] → pnlLosses trades ≠ [] →
      (analytics_summary trades).profit_factor
        = PF.val ((pnlWins trades).sum / |(pnlLosses trades).sum|))
    ∧ (pnlWins trades ≠ [] → pnlLosses trades = [] →
      (analytics_summary trades).profit_factor = PF.inf)
    ∧ (pnlWins trades = [] →
      (analytics_summary trades).profit_factor = PF.val 0) := by
  refine ⟨fun hw hl => ?_, fun hw hl => ?_, fun hw => ?_⟩
  · simp only [analytics_summary]
    rw [if_pos ⟨hw, hl⟩]
  · simp only [analytics_summary]
    rw [if_neg (fun hc => hc.2 hl), if_pos hw]
  · simp only [analytics_summary]
    rw [if_neg (fun hc => hc.1 hw), if_neg (not_not_intro hw)]

theorem computablePnls_pair :
    computablePnls [exampleLong, exampleLoss] = [95, -21] := by
  norm_num [computablePnls, trade_realized_pnl, exampleLong, exampleLoss,
    List.filterMap_cons]

theorem pnlWins_pair : pnlWins [exampleLong, exampleLoss] = [95] := by
  norm_num [pnlWins, computablePnls_pair]

theorem pnlLosses_pair : pnlLosses [exampleLong, exampleLoss] = [-21] := by
  norm_num [pnlLosses, computablePnls_pair]

theorem computablePnls_single : computablePnls [exampleLong] = [95] := by
  norm_num [computablePnls, trade_realized_pnl, exampleLong, List.filterMap_cons]

theorem pnlWins_single : pnlWins [exampleLong] = [95] := by
  norm_num [pnlWins, computablePnls_single]

theorem pnlLosses_single : pnlLosses [exampleLong] = [] := by
  norm_num [pnlLosses, computablePnls_single]

/-- C2 witness: one winning and one losing trade give the finite ratio,
and a single winning trade gives `+infinity` (the spec's only-wins
example). -/
theorem profit_factor_policy_witness :
    pnlWins [exampleLong, exampleLoss] ≠ []
    ∧ pnlLosses [exampleLong, exampleLoss] ≠ []
    ∧ (analytics_summary [exampleLong, exampleLoss]).profit_factor
        = PF.val ((pnlWins [exampleLong, exampleLoss]).sum
            / |(pnlLosses [exampleLong, exampleLoss]).sum|)
    ∧ pnlWins [exampleLong] ≠ [] ∧ pnlLosses [exampleLong] = []
    ∧ (analytics_summary [exampleLong]).profit_factor = PF.inf := by
  have hw2 : pnlWins [exampleLong, exampleLoss] ≠ [] := by
    rw [pnlWins_pair]
    simp
  have hl2 : pnlLosses [exampleLong, exampleLoss] ≠ [] := by
    rw [pnlLosses_pair]
    simp
  have hw1 : pnlWins [exampleLong] ≠ [] := by
    rw [pnlWins_single]
    simp
  exact ⟨hw2, hl2, (profit_factor_policy [exampleLong, exampleLoss]).1 hw2 hl2,
    hw1, pnlLosses_single,
    (profit_factor_policy [exampleLong]).2.1 hw1 pnlLosses_single⟩

/-! ### Inserting a non-computable trade -/

theorem symbolContrib_none {t : Trade} (h : trade_realized_pnl t = none) :
    symbolContrib t = none := by
  simp [symbolContrib, h]

theorem strategyContrib_none {t : Trade} (h : trade_realized_pnl t = none) :
    strategyContrib t = none := by
  simp [strategyContrib, h]

theorem monthContrib_none {t : Trade} (h : trade_realized_pnl t = none) :
    monthContrib t = none := by
  rw [monthContrib, h]

theorem foldl_accumStep_middle_none {α : Type} [DecidableEq α]
    (contrib : Trade → Option (α × ℚ)) {t : Trade} (hc : contrib t = none)
    (A B : List Trade) (m : List (α × ℚ)) :
    (A ++ t :: B).foldl (accumStep contrib) m = (A ++ B).foldl (accumStep contrib) m := by
  rw [List.foldl_append, List.foldl_append, List.foldl_cons]
  have : accumStep contrib (A.foldl (accumStep contrib) m) t
      = A.foldl (accumStep contrib) m := by
    simp only [accumStep, hc]
  rw [this]

theorem accumBy_closed_insert {α : Type} [DecidableEq α]
    (contrib : Trade → Option (α × ℚ)) {t : Trade} (hc : contrib t = none)
    (l1 l2 : List Trade) :
    accumBy contrib ((l1 ++ t :: l2).filter fun u => u.closed)
      = accumBy contrib ((l1 ++ l2).filter fun u => u.closed) := by
  rw [List.filter_append, List.filter_append, List.filter_cons]
  by_cases h : t.closed
  · rw [if_pos (by simpa using h)]
    exact foldl_accumStep_middle_none contrib hc _ _ []
  · rw [if_neg (by simpa using h)]

theorem computablePnls_insert {t : Trade} (h : trade_realized_pnl t = none)
    (l1 l2 : List Trade) :
    computablePnls (l1 ++ t :: l2) = computablePnls (l1 ++ l2) := by
  rw [computablePnls_eq_filterMap, computablePnls_eq_filterMap,
    List.filterMap_append, List.filterMap_append, List.filterMap_cons, h]

/-- C8: `total_trades` counts all input trades and `closed_trades` counts
the trades with `closed = true` regardless of computability, and inserting
a non-computable trade anywhere never breaks the computation and changes
none of the PnL-based statistics — it only increments `total_trades` (and
`closed_trades` when it is closed). -/
theorem summary_counts_and_noncomputable (l1 l2 : List Trade) (t : Trade)
    (h : trade_realized_pnl t = none) :
    (∀ ts : List Trade, (analytics_summary ts).total_trades = ts.length
      ∧ (analytics_summary ts).closed_trades = (ts.filter fun u => u.closed).length)
    ∧ (analytics_summary (l1 ++ t :: l2)).total_trades
        = (analytics_summary (l1 ++ l2)).total_trades + 1
    ∧ (analytics_summary (l1 ++ t :: l2)).closed_trades
        = (analytics_summary (l1 ++ l2)).closed_trades + (if t.closed then 1 else 0)
    ∧ (analytics_summary (l1 ++ t :: l2)).win_rate
        = (analytics_summary (l1 ++ l2)).win_rate
    ∧ (analytics_summary (l1 ++ t :: l2)).net_pnl
        = (analytics_summary (l1 ++ l2)).net_pnl
    ∧ (analytics_summary (l1 ++ t :: l2)).avg_win
        = (analytics_summary (l1 ++ l2)).avg_win
    ∧ (analytics_summary (l1 ++ t :: l2)).avg_loss
        = (analytics_summary (l1 ++ l2)).avg_loss
    ∧ (analytics_summary (l1 ++ t :: l2)).profit_factor
        = (analytics_summary (l1 ++ l2)).profit_factor
    ∧ (analytics_summary (l1 ++ t :: l2)).by_symbol
        = (analytics_summary (l1 ++ l2)).by_symbol
    ∧ (analytics_summary (l1 ++ t :: l2)).by_strategy
        = (analytics_summary (l1 ++ l2)).by_strategy
    ∧ (analytics_summary (l1 ++ t :: l2)).monthly
        = (analytics_summary (l1 ++ l2)).monthly := by
  have hp := computablePnls_insert h l1 l2
  have hw : pnlWins (l1 ++ t :: l2) = pnlWins (l1 ++ l2) := by
    rw [pnlWins, pnlWins, hp]
  have hl : pnlLosses (l1 ++ t :: l2) = pnlLosses (l1 ++ l2) := by
    rw [pnlLosses, pnlLosses, hp]
  refine ⟨fun ts => ⟨rfl, rfl⟩, ?_, ?_, ?_, ?_, ?_, ?_, ?_, ?_, ?_, ?_⟩
  · simp only [analytics_summary, List.length_append, List.length_cons]
    omega
  · simp only [analytics_summary, List.filter_append, List.filter_cons,
      List.length_append]
    by_cases hc : t.closed
    · rw [if_pos (by simpa using hc), if_pos hc]
      simp only [List.length_cons]
      omega
    · rw [if_neg (by simpa using hc), if_neg hc]
      omega
  · simp only [analytics_summary]
    rw [hp, hw]
  · simp only [analytics_summary]
    rw [hp]
  · simp only [analytics_summary]
    rw [hw]
  · simp only [analytics_summary]
    rw [hl]
  · simp only [analytics_summary]
    rw [hw, hl]
  · simp only [analytics_summary]
    exact accumBy_closed_insert _ (symbolContrib_none h) l1 l2
  · simp only [analytics_summary]
    exact accumBy_closed_insert _ (strategyContrib_none h) l1 l2
  · simp only [analytics_summary]
    exact accumBy_closed_insert _ (monthContrib_none h) l1 l2

/-- C8 witness: inserting a closed quantity-less trade between two
computable trades increments `total_trades` and `closed_trades` and leaves
`net_pnl` and `by_symbol` unchanged. -/
theorem summary_counts_and_noncomputable_witness :
    trade_realized_pnl exampleNoQty = none
    ∧ (analytics_summary [exampleLong, exampleNoQty, exampleShort]).total_trades
        = (analytics_summary [exampleLong, exampleShort]).total_trades + 1
    ∧ (analytics_summary [exampleLong, exampleNoQty, exampleShort]).net_pnl
        = (analytics_summary [exampleLong, exampleShort]).net_pnl
    ∧ (analytics_summary [exampleLong, exampleNoQty, exampleShort]).by_symbol
        = (analytics_summary [exampleLong, exampleShort]).by_symbol :=
  ⟨rfl,
   (summary_counts_and_noncomputable [exampleLong] [exampleShort] exampleNoQty rfl).2.1,
   (summary_counts_and_noncomputable [exampleLong] [exampleShort] exampleNoQty rfl).2.2.2.2.1,
   (summary_counts_and_noncomputable [exampleLong] [exampleShort] exampleNoQty rfl).2.2.2.2.2.2.2.2.1⟩

/-! ## Claim theorems: equity curve builder -/

theorem pnl_none_of_exit_none {t : Trade} (h : t.exit_price = none) :
    trade_realized_pnl t = none := by
  rw [trade_realized_pnl, h]
  rcases t.closed <;> rcases t.entry_price <;> rcases t.quantity <;> rfl

theorem equityFilter_filterMap_pnl (trades : List Trade) :
    (equityFilter trades).filterMap trade_realized_pnl
      = trades.filterMap trade_realized_pnl := by
  rw [equityFilter]
  refine filterMap_filter_eq _ _ (fun a ha => ?_) trades
  rcases hcl : a.closed
  · exact pnl_none_of_not_closed hcl
  · rw [hcl] at ha
    simp only [Bool.true_and] at ha
    exact pnl_none_of_exit_none (Option.not_isSome_iff_eq_none.mp (by simp [ha]))

theorem curveLoop_ok_last :
    ∀ (ts : List Trade) (cum : ℚ) (pts : List (ℤ × ℚ)),
      curveLoop ts cum = Except.ok pts →
      (pts.getLast?.map Prod.snd).getD cum
        = cum + (ts.filterMap trade_realized_pnl).sum := by
  intro ts
  induction ts with
  | nil =>
    intro cum pts h
    simp only [curveLoop, Except.ok.injEq] at h
    subst h
    simp
  | cons t rest ih =>
    intro cum pts h
    simp only [curveLoop] at h
    rcases hp : trade_realized_pnl t with _ | p
    · simp only [hp] at h
      rw [List.filterMap_cons, hp]
      exact ih cum pts h
    · simp only [hp] at h
      rcases hd : t.exit_date with _ | d
      · simp only [hd] at h
        cases h
      · simp only [hd] at h
        rcases hr : curveLoop rest (cum + p) with m | pts'
        · rw [hr] at h
          simp [Except.map] at h
        · rw [hr] at h
          simp only [Except.map, Except.ok.injEq] at h
          subst h
          have hih := ih (cum + p) pts' hr
          rw [List.filterMap_cons, hp, List.sum_cons]
          rcases pts' with _ | ⟨q, qs⟩
          · simp only [List.getLast?, Option.map_none', Option.getD_none] at hih
            simp [← add_assoc, ← hih]
          · have hsome : (q :: qs).getLast?.isSome := by simp
            obtain ⟨last, hlast⟩ := Option.isSome_iff_exists.mp hsome
            rw [List.getLast?_cons_cons, hlast]
            rw [hlast] at hih
            simp only [Option.map_some', Option.getD_some] at hih ⊢
            rw [hih]
            ring

theorem curveLoop_ok_mem :
    ∀ (ts : List Trade) (cum : ℚ) (pts : List (ℤ × ℚ)),
      curveLoop ts cum = Except.ok pts →
      ∀ pt ∈ pts, ∃ t ∈ ts, ∃ p d, trade_realized_pnl t = some p
        ∧ t.exit_date = some d ∧ pt.1 = dayOfSec d := by
  intro ts
  induction ts with
  | nil =>
    intro cum pts h
    simp only [curveLoop, Except.ok.injEq] at h
    subst h
    intro pt hpt
    cases hpt
  | cons t rest ih =>
    intro cum pts h
    simp only [curveLoop] at h
    rcases hp : trade_realized_pnl t with _ | p
    · simp only [hp] at h
      intro pt hpt
      obtain ⟨u, hu, w⟩ := ih cum pts h pt hpt
      exact ⟨u, List.mem_cons_of_mem _ hu, w⟩
    · simp only [hp] at h
      rcases hd : t.exit_date with _ | d
      · simp only [hd] at h
        cases h
      · simp only [hd] at h
        rcases hr : curveLoop rest (cum + p) with m | pts'
        · rw [hr] at h
          simp [Except.map] at h
        · rw [hr] at h
          simp only [Except.map, Except.ok.injEq] at h
          subst h
          intro pt hpt
          rcases List.mem_cons.mp hpt with hpt | hpt
          · exact ⟨t, List.mem_cons_self t rest, p, d, hp, hd, by rw [hpt]⟩
          · obtain ⟨u, hu, w⟩ := ih (cum + p) pts' hr pt hpt
            exact ⟨u, List.mem_cons_of_mem _ hu, w⟩

theorem dayOfSec_mono {a b : ℤ} (h : a ≤ b) : dayOfSec a ≤ dayOfSec b :=
  Int.ediv_le_ediv (by decide) h

theorem curveLoop_ok_pairwise :
    ∀ (ts : List Trade) (cum : ℚ) (pts : List (ℤ × ℚ)),
      ts.Pairwise (fun a b => exitDateLe a b = true) →
      curveLoop ts cum = Except.ok pts →
      pts.Pairwise fun a b => a.1 ≤ b.1 := by
  intro ts
  induction ts with
  | nil =>
    intro cum pts _ h
    simp only [curveLoop, Except.ok.injEq] at h
    subst h
    exact List.Pairwise.nil
  | cons t rest ih =>
    intro cum pts hpair h
    obtain ⟨hhead, htail⟩ := List.pairwise_cons.mp hpair
    simp only [curveLoop] at h
    rcases hp : trade_realized_pnl t with _ | p
    · simp only [hp] at h
      exact ih cum pts htail h
    · simp only [hp] at h
      rcases hd : t.exit_date with _ | d
      · simp only [hd] at h
        cases h
      · simp only [hd] at h
        rcases hr : curveLoop rest (cum + p) with m | pts'
        · rw [hr] at h
          simp [Except.map] at h
        · rw [hr] at h
          simp only [Except.map, Except.ok.injEq] at h
          subst h
          refine List.pairwise_cons.mpr ⟨?_, ih (cum + p) pts' htail hr⟩
          intro pt hpt
          obtain ⟨u, hu, q, d', hq, hd', hpt1⟩ := curveLoop_ok_mem rest (cum + p) pts' hr pt hpt
          have hle : exitDateLe t u = true := hhead u hu
          rw [exitDateLe, hd, hd'] at hle
          have hdd : d ≤ d' := by
            simpa using hle
          rw [hpt1]
          exact dayOfSec_mono hdd

theorem exitDateLe_trans (a b c : Trade) : exitDateLe a b → exitDateLe b c →
    exitDateLe a c := by
  rw [exitDateLe, exitDateLe, exitDateLe]
  rcases a.exit_date with _ | x <;> rcases b.exit_date with _ | y <;>
    rcases c.exit_date with _ | z <;> simp
  omega

theorem exitDateLe_total (a b : Trade) : exitDateLe a b || exitDateLe b a := by
  rw [exitDateLe, exitDateLe]
  rcases a.exit_date with _ | x <;> rcases b.exit_date with _ | y <;> simp
  omega

theorem curveLoop_ok_of_dates :
    ∀ (ts : List Trade) (cum : ℚ), (∀ t ∈ ts, t.exit_date.isSome) →
      ∃ pts, curveLoop ts cum = Except.ok pts := by
  intro ts
  induction ts with
  | nil => exact fun cum _ => ⟨[], rfl⟩
  | cons t rest ih =>
    intro cum hdat
    rcases hp : trade_realized_pnl t with _ | p
    · obtain ⟨pts, hr⟩ := ih cum fun u hu => hdat u (List.mem_cons_of_mem _ hu)
      refine ⟨pts, ?_⟩
      simp only [curveLoop, hp]
      exact hr
    · have hsome : t.exit_date.isSome := hdat t (List.mem_cons_self t rest)
      rcases hd : t.exit_date with _ | d
      · rw [hd] at hsome
        cases hsome
      · obtain ⟨pts, hr⟩ := ih (cum + p) fun u hu => hdat u (List.mem_cons_of_mem _ hu)
        refine ⟨(dayOfSec d, cum + p) :: pts, ?_⟩
        simp only [curveLoop, hp, hd, hr, Except.map]

theorem analytics_equity_curve_ok (trades : List Trade)
    (h : ∀ t ∈ trades, t.exit_date.isSome) :
    ∃ pts, analytics_equity_curve trades = Except.ok pts := by
  rw [analytics_equity_curve]
  apply curveLoop_ok_of_dates
  intro t ht
  have h1 : t ∈ equityFilter trades :=
    ((List.mergeSort_perm (equityFilter trades) exitDateLe).mem_iff).mp ht
  exact h t (List.mem_filter.mp h1).1

/-- C6: the equity-curve builder sorts the fetched trades ascending by
`exit_date` before accumulating, so whatever the stored order, whenever it
returns points their dates are non-decreasing. -/
theorem equity_curve_dates_sorted (trades : List Trade) (pts : List (ℤ × ℚ))
    (h : analytics_equity_curve trades = Except.ok pts) :
    pts.Pairwise fun a b => a.1 ≤ b.1 := by
  rw [analytics_equity_curve] at h
  exact curveLoop_ok_pairwise _ 0 pts
    (List.sorted_mergeSort exitDateLe_trans exitDateLe_total (equityFilter trades)) h

/-- C6 witness: on two trades supplied in reverse chronological order the
curve succeeds and its points are in non-decreasing date order. -/
theorem equity_curve_dates_sorted_witness :
    ∃ pts, analytics_equity_curve [exampleLong, exampleShort] = Except.ok pts
      ∧ pts.Pairwise fun a b => a.1 ≤ b.1 := by
  obtain ⟨pts, hok⟩ := analytics_equity_curve_ok [exampleLong, exampleShort]
    (by intro t ht
        rcases List.mem_cons.mp ht with rfl | ht
        · rfl
        · rcases List.mem_cons.mp ht with rfl | ht
          · rfl
          · cases ht)
  exact ⟨pts, hok, equity_curve_dates_sorted [exampleLong, exampleShort] pts hok⟩

/-- C3 counterexample: a trade marked closed with full price data but no
`exit_date` makes the equity-curve computation fail outright (Python
raises `AttributeError` on `None.date()`), so the claimed equality of the
final cumulative equity with `net_pnl` (here 10) fails for this trade
set. -/
theorem equity_final_counterexample :
    ¬ ∃ pts, analytics_equity_curve [exampleDateless] = Except.ok pts
      ∧ (pts.getLast?.map Prod.snd).getD 0
          = (analytics_summary [exampleDateless]).net_pnl := by
  rintro ⟨pts, h, -⟩
  have hsort : (equityFilter [exampleDateless]).mergeSort exitDateLe
      = [exampleDateless] :=
    List.mergeSort_of_sorted (List.pairwise_singleton _ _)
  rw [analytics_equity_curve, hsort] at h
  have herr : curveLoop [exampleDateless] 0
      = Except.error "AttributeError: NoneType object has no attribute date" := rfl
  rw [herr] at h
  cases h

/-- C3 (amended): whenever the equity-curve computation succeeds — that
is, every PnL-computable fetched trade carries an `exit_date` — the equity
of its last point (0 when it emits no points) equals the `net_pnl` of the
summary over the same trade set. -/
theorem equity_final_eq_net_pnl (trades : List Trade) (pts : List (ℤ × ℚ))
    (h : analytics_equity_curve trades = Except.ok pts) :
    (pts.getLast?.map Prod.snd).getD 0 = (analytics_summary trades).net_pnl := by
  rw [analytics_equity_curve] at h
  have h1 := curveLoop_ok_last _ 0 pts h
  have hperm : List.Perm
      (((equityFilter trades).mergeSort exitDateLe).filterMap trade_realized_pnl)
      ((equityFilter trades).filterMap trade_realized_pnl) :=
    (List.mergeSort_perm (equityFilter trades) exitDateLe).filterMap trade_realized_pnl
  rw [h1, hperm.sum_eq, equityFilter_filterMap_pnl]
  simp only [analytics_summary]
  rw [computablePnls_eq_filterMap, zero_add]

/-- C3 amended-claim witness: on a concrete two-trade set the curve
succeeds and its final equity equals the summary's `net_pnl`. -/
theorem equity_final_eq_net_pnl_witness :
    ∃ pts, analytics_equity_curve [exampleLong, exampleShort] = Except.ok pts
      ∧ (pts.getLast?.map Prod.snd).getD 0
          = (analytics_summary [exampleLong, exampleShort]).net_pnl := by
  obtain ⟨pts, hok⟩ := analytics_equity_curve_ok [exampleLong, exampleShort]
    (by intro t ht
        rcases List.mem_cons.mp ht with rfl | ht
        · rfl
        · rcases List.mem_cons.mp ht with rfl | ht
          · rfl
          · cases ht)
  exact ⟨pts, hok, equity_final_eq_net_pnl [exampleLong, exampleShort] pts hok⟩

end TradingJournal
